import Mathlib

/-!
Shallow embedding of the heapspurs trace decoder (package trace, file
src/unnamed/part_000, together with the reporting loops of
cmd/tracespurs/main.go and cmd/heapspurs/main.go).

Bytes are modelled as natural numbers below 256; Go uint64 arithmetic is
Nat arithmetic reduced modulo 2 ^ 64 where overflow can occur, and Go int /
int64 values are modelled as Int with the two's-complement wrap made
explicit.  Go panics and fatal errors are modelled by Option: a result of
none means the run aborts with no value.
-/

namespace Trace

/-- Two's-complement reinterpretation of a uint64 value as a Go int / int64. -/
def intOfUInt64 (n : Nat) : Int :=
  if n < 2 ^ 63 then (n : Int) else (n : Int) - 2 ^ 64

/-- Wrap an unbounded integer into the int64 range, as Go int64 arithmetic does. -/
def wrap64 (x : Int) : Int :=
  (x + 2 ^ 63) % 2 ^ 64 - 2 ^ 63

/-- Maximum byte length of a uint64 varint, binary.MaxVarintLen64 in Go. -/
def maxVarintLen64 : Nat := 10

/-- Loop of binary.Uvarint: index i, accumulator x, shift s.  Returns the
decoded value and the number of bytes consumed, or none where Go reports
n <= 0 (buffer exhausted mid-varint, or uint64 overflow). -/
def uvarintAux : List Nat → Nat → Nat → Nat → Option (Nat × Nat)
  | [], _, _, _ => none
  | b :: rest, i, x, s =>
    if i = maxVarintLen64 then none
    else if b < 128 then
      if i = maxVarintLen64 - 1 ∧ 1 < b then none
      else some ((x + b * 2 ^ s) % 2 ^ 64, i + 1)
    else uvarintAux rest (i + 1) ((x + b % 128 * 2 ^ s) % 2 ^ 64) (s + 7)

/-- binary.Uvarint of the Go standard library. -/
def uvarint (bs : List Nat) : Option (Nat × Nat) :=
  uvarintAux bs 0 0 0

/-- TraceInfo of the source: heap-layout parameters decoded from an info batch. -/
structure TraceInfo where
  MinPageHeapAddr : Nat
  PageSize : Nat
  MinHeapAlign : Nat
  FixedStack : Nat
deriving DecidableEq, Repr

/-- TypeMeta of the source: one type-catalog entry.  Name is kept as the raw
byte sequence, exactly as Go string(...) retains it. -/
structure TypeMeta where
  Id : Int
  Ptr : Nat
  Size : Int
  PtrBytes : Int
  Name : List Nat
deriving DecidableEq, Repr

/-- parseAllocFreeInfo of the source, the part after the discriminant byte:
four varints read in fixed order. -/
def readInfoFields (bs : List Nat) : Option TraceInfo :=
  match uvarint bs with
  | none => none
  | some (minAddr, n₁) =>
    match uvarint (bs.drop n₁) with
    | none => none
    | some (pageSize, n₂) =>
      match uvarint ((bs.drop n₁).drop n₂) with
      | none => none
      | some (minAlign, n₃) =>
        match uvarint (((bs.drop n₁).drop n₂).drop n₃) with
        | none => none
        | some (fixedStack, _) => some ⟨minAddr, pageSize, minAlign, fixedStack⟩

/-- parseAllocFreeInfo of the source.  Go asserts inputData[0] == 1 (panicking
on a mismatch or an empty buffer) and then reads the four fields. -/
def parseAllocFreeInfo (data : List Nat) : Option TraceInfo :=
  match data with
  | [] => none
  | b :: rest => if b = 1 then readInfoFields rest else none

/-- Loop body of parseAllocFreeTypes: records of five varints followed by
nameLen name bytes, until the buffer is exhausted.  The fuel argument is a
modelling artifact bounding the number of iterations; every record consumes
at least one byte, so fuel equal to the buffer length suffices. -/
def parseTypeRecords : Nat → List Nat → Option (List TypeMeta)
  | 0, data => if data = [] then some [] else none
  | fuel + 1, data =>
    if data = [] then some []
    else
      match uvarint data with
      | none => none
      | some (nodeID, n₁) =>
        match uvarint (data.drop n₁) with
        | none => none
        | some (typPtr, n₂) =>
          match uvarint ((data.drop n₁).drop n₂) with
          | none => none
          | some (size, n₃) =>
            match uvarint (((data.drop n₁).drop n₂).drop n₃) with
            | none => none
            | some (ptrBytes, n₄) =>
              match uvarint ((((data.drop n₁).drop n₂).drop n₃).drop n₄) with
              | none => none
              | some (nameLen, n₅) =>
                let d₅ := ((((data.drop n₁).drop n₂).drop n₃).drop n₄).drop n₅
                if nameLen ≤ d₅.length then
                  match parseTypeRecords fuel (d₅.drop nameLen) with
                  | none => none
                  | some ms =>
                    some (⟨intOfUInt64 nodeID, typPtr, intOfUInt64 size,
                           intOfUInt64 ptrBytes, d₅.take nameLen⟩ :: ms)
                else none

/-- Swap test of the final slices.SortFunc in parseAllocFreeTypes: whether
cmp(a, b) < 0 for the comparator int(a.Id - b.Id), an int64 subtraction
that wraps. -/
def metaCmpLt (a b : TypeMeta) : Bool :=
  decide (wrap64 (a.Id - b.Id) < 0)

/-- Inner loop of insertionSortCmpFunc of the Go standard library: the
freshly appended element x swaps leftwards while cmp(x, predecessor) < 0.
The already-sorted prefix is carried reversed, rightmost element first. -/
def bubbleRev {α : Type} (lt : α → α → Bool) (x : α) : List α → List α
  | [] => [x]
  | y :: rest => if lt x y then y :: bubbleRev lt x rest else x :: y :: rest

/-- Outer loop of insertionSortCmpFunc: append each element and bubble it
into place; the accumulator holds the processed prefix reversed. -/
def goInsertionSortRev {α : Type} (lt : α → α → Bool) : List α → List α → List α
  | [], racc => racc.reverse
  | x :: xs, racc => goInsertionSortRev lt xs (bubbleRev lt x racc)

/-- insertionSortCmpFunc of the Go standard library, the algorithm
slices.SortFunc runs on slices of fewer than twelve elements (and whose
result any correct sort matches when the comparator is consistent). -/
def goInsertionSort {α : Type} (lt : α → α → Bool) (l : List α) : List α :=
  goInsertionSortRev lt l []

/-- slices.SortFunc on type entries: Go insertion sort under the wrapped
comparator. -/
def sortMetas (l : List TypeMeta) : List TypeMeta :=
  goInsertionSort metaCmpLt l

/-- parseAllocFreeTypes of the source.  Go asserts inputData[0] == 0, loops
over the records and finally sorts by id. -/
def parseAllocFreeTypes (data : List Nat) : Option (List TypeMeta) :=
  match data with
  | [] => none
  | b :: rest =>
    if b = 0 then (parseTypeRecords rest.length rest).map sortMetas else none

/-- HeapObject of the source: one tracked allocation.  The id is the raw
uint64 event argument, typ is int(Args[1]) and time the int64 event
timestamp. -/
structure HeapObject where
  id : Nat
  typ : Int
  time : Int
deriving DecidableEq, Repr

/-- HeapObject.Addr: (h.id * 8) + t.MinPageHeapAddr in uint64 arithmetic. -/
def HeapObject.Addr (h : HeapObject) (t : TraceInfo) : Nat :=
  (h.id * 8 + t.MinPageHeapAddr) % 2 ^ 64

/-- Lookup in the Go map typeMap, modelled as an association list with the
most recent binding first. -/
def tmLookup (m : List (Int × TypeMeta)) (k : Int) : Option TypeMeta :=
  (m.find? fun p => p.1 = k).map (·.2)

/-- Overwriting insertion typeMap[k] = v of a Go map. -/
def tmInsert (m : List (Int × TypeMeta)) (k : Int) (v : TypeMeta) :
    List (Int × TypeMeta) :=
  (k, v) :: m.filter fun p => p.1 ≠ k

/-- HeapObject.Type: name lookup with the placeholder "???" (bytes 63 63 63)
for a missing catalog entry. -/
def HeapObject.TypeName (h : HeapObject) (t : List (Int × TypeMeta)) : List Nat :=
  match tmLookup t h.typ with
  | none => [63, 63, 63]
  | some v => v.Name

/-- HeapObject.Size: size lookup defaulting to 0 for a missing catalog entry. -/
def HeapObject.SizeVal (h : HeapObject) (t : List (Int × TypeMeta)) : Int :=
  match tmLookup t h.typ with
  | none => 0
  | some v => v.Size

/-- HeapObject.HasName: whether the catalog has an entry for the type. -/
def HeapObject.HasName (h : HeapObject) (t : List (Int × TypeMeta)) : Bool :=
  (tmLookup t h.typ).isSome

/-- PtrObjectMapping of the source: one line of the final report. -/
structure PtrObjectMapping where
  Ptr : Nat
  TypeName : List Nat
  Size : Int
deriving DecidableEq, Repr

/-- Lookup in the Go map allocs. -/
def lsLookup (l : List (Nat × HeapObject)) (k : Nat) : Option HeapObject :=
  (l.find? fun p => p.1 = k).map (·.2)

/-- Overwriting insertion allocs[id] = h of a Go map. -/
def lsInsert (l : List (Nat × HeapObject)) (k : Nat) (h : HeapObject) :
    List (Nat × HeapObject) :=
  (k, h) :: l.filter fun p => p.1 ≠ k

/-- delete(allocs, id) of a Go map. -/
def lsErase (l : List (Nat × HeapObject)) (k : Nat) : List (Nat × HeapObject) :=
  l.filter fun p => p.1 ≠ k

/-- One event as delivered by the golang.org/x/exp/trace reader.  Only the
experimental events the source inspects are distinguished; every other event
is otherEvent and is skipped.  A Span event carries its batch byte blobs,
none standing for a nil ExperimentalData pointer. -/
inductive Event where
  | heapObject (id typ : Nat) (time : Int)
  | heapObjectAlloc (id typ : Nat) (time : Int)
  | heapObjectFree (id : Nat)
  | span (expData : Option (List (List Nat)))
  | otherEvent
deriving DecidableEq, Repr

/-- Mutable state of the ParseTrace loop. -/
structure ParseState where
  allocFreeInfo : TraceInfo
  typeMap : List (Int × TypeMeta)
  allocs : List (Nat × HeapObject)
deriving DecidableEq, Repr

/-- Zero-value initial state of the ParseTrace loop. -/
def initState : ParseState :=
  ⟨⟨0, 0, 0, 0⟩, [], []⟩

/-- Handling of one Span batch: data[0] = 1 decodes heap-layout info,
data[0] = 0 decodes and merges a type-catalog fragment, any other first
byte is skipped.  Indexing data[0] on an empty batch panics (none). -/
def batchStep (st : ParseState) (data : List Nat) : Option ParseState :=
  match data.head? with
  | none => none
  | some b =>
    if b = 1 then
      match parseAllocFreeInfo data with
      | none => none
      | some info => some { st with allocFreeInfo := info }
    else if b = 0 then
      match parseAllocFreeTypes data with
      | none => none
      | some types =>
        some { st with
               typeMap := types.foldl (fun m t => tmInsert m t.Id t) st.typeMap }
    else some st

/-- Fold of batchStep over the batches of one Span event. -/
def spanBatches : ParseState → List (List Nat) → Option ParseState
  | st, [] => some st
  | st, d :: ds =>
    match batchStep st d with
    | none => none
    | some st' => spanBatches st' ds

/-- One iteration of the ParseTrace event loop. -/
def step (onlyExistingObjects : Bool) (st : ParseState) : Event → Option ParseState
  | .heapObject id typ time =>
    some { st with allocs := lsInsert st.allocs id ⟨id, intOfUInt64 typ, time⟩ }
  | .heapObjectAlloc id typ time =>
    if onlyExistingObjects then some st
    else some { st with allocs := lsInsert st.allocs id ⟨id, intOfUInt64 typ, time⟩ }
  | .heapObjectFree id =>
    if onlyExistingObjects then some st
    else some { st with allocs := lsErase st.allocs id }
  | .span none => none
  | .span (some batches) => spanBatches st batches
  | .otherEvent => some st

/-- The whole ParseTrace event loop over a finite event stream. -/
def runEvents (onlyExistingObjects : Bool) : ParseState → List Event → Option ParseState
  | st, [] => some st
  | st, e :: es =>
    match step onlyExistingObjects st e with
    | none => none
    | some st' => runEvents onlyExistingObjects st' es

/-- Comparator of slices.SortFunc over HeapObject: int(a.time - b.time), an
int64 subtraction that wraps, compared against zero. -/
def hoLe (a b : HeapObject) : Prop :=
  wrap64 (a.time - b.time) ≤ 0

instance : DecidableRel hoLe := fun a b => by
  unfold hoLe
  infer_instance

/-- slices.SortFunc on the collected live objects, modelled as an insertion
sort with respect to the same comparator. -/
def sortAllocs (l : List HeapObject) : List HeapObject :=
  l.insertionSort hoLe

/-- Post-loop reporting phase of ParseTrace: collect the live objects, sort
them by the timestamp comparator and keep only entries whose type has a
catalog name.  The Go map iteration order is modelled by the order of the
association list. -/
def mappingsOfState (st : ParseState) : List PtrObjectMapping :=
  (sortAllocs (st.allocs.map (·.2))).filterMap fun h =>
    if h.HasName st.typeMap then
      some ⟨h.Addr st.allocFreeInfo, h.TypeName st.typeMap, h.SizeVal st.typeMap⟩
    else none

/-- ParseTrace of the source, from a stream of already-read events.  The
debug flag only controls logging and has no semantic effect. -/
def ParseTrace (events : List Event) (debug onlyExistingObjects : Bool) :
    Option (List PtrObjectMapping) :=
  let _ := debug
  (runEvents onlyExistingObjects initState events).map mappingsOfState

/-- Decimal digit bytes of a natural number, most significant first; the
fuel argument makes the recursion structural. -/
def natDecAux : Nat → Nat → List Nat
  | 0, _ => []
  | f + 1, n => if n = 0 then [] else natDecAux f (n / 10) ++ [n % 10 + 48]

/-- Byte text of fmt %d for a nonnegative value. -/
def natDecBytes (n : Nat) : List Nat :=
  if n = 0 then [48] else natDecAux (n + 1) n

/-- Byte text of fmt %d for a Go int. -/
def intDecBytes (i : Int) : List Nat :=
  if i < 0 then 45 :: natDecBytes i.natAbs else natDecBytes i.toNat

/-- Lowercase hex digit byte. -/
def hexDigit (d : Nat) : Nat :=
  if d < 10 then d + 48 else d + 87

/-- Hex digit bytes of a natural number, most significant first. -/
def natHexAux : Nat → Nat → List Nat
  | 0, _ => []
  | f + 1, n => if n = 0 then [] else natHexAux f (n / 16) ++ [hexDigit (n % 16)]

/-- Byte text of fmt %x for a uint64 value: lowercase, no padding. -/
def natHexBytes (n : Nat) : List Nat :=
  if n = 0 then [48] else natHexAux (n + 1) n

/-- AddrString: fmt.Sprintf("0x%x", ptr) as bytes. -/
def addrStringBytes (p : Nat) : List Nat :=
  [48, 120] ++ natHexBytes p

/-- One printed report line, fmt.Printf("%s: %s %d\n", ...) of both main
programs, as raw bytes including the terminating newline. -/
def mappingLine (m : PtrObjectMapping) : List Nat :=
  addrStringBytes m.Ptr ++ [58, 32] ++ m.TypeName ++ [32] ++ intDecBytes m.Size ++ [10]

/-- The full report: one line per mapping, nothing else. -/
def reportLines (ms : List PtrObjectMapping) : List (List Nat) :=
  ms.map mappingLine

/-- Modelled from the spec: the AddressResolver inverse unresolve(address,
params) = (address - params.minHeapAddr) / 8.  The repository source under
src/ contains only the forward direction HeapObject.Addr; this definition
follows section 4.4 of the spec, with Nat subtraction and division standing
for the unsigned arithmetic of the spec contract. -/
def unresolve (a : Nat) (t : TraceInfo) : Nat :=
  (a - t.MinPageHeapAddr) / 8

/-- Number of HeapObjectAlloc events for an id, the alloc count of the naive
counting reference model of spec section 8. -/
def countAlloc (es : List Event) (id : Nat) : Nat :=
  (es.filter fun e =>
    match e with
    | .heapObjectAlloc i _ _ => decide (i = id)
    | _ => false).length

/-- Number of HeapObjectFree events for an id, the free count of the naive
counting reference model of spec section 8. -/
def countFree (es : List Event) (id : Nat) : Nat :=
  (es.filter fun e =>
    match e with
    | .heapObjectFree i => decide (i = id)
    | _ => false).length

/-- Last-event-wins reference model: an id is live after a stream of
alloc/free events exactly when some alloc of it is not followed by a later
free of it. -/
def liveAfter (es : List Event) (id : Nat) : Bool :=
  es.foldl
    (fun b e =>
      match e with
      | .heapObjectAlloc i _ _ => if i = id then true else b
      | .heapObjectFree i => if i = id then false else b
      | _ => b)
    false

/-- Whether an event is a churn alloc/free record (the events the counting
model of spec section 8 ranges over). -/
def isAllocFree : Event → Bool
  | .heapObjectAlloc _ _ _ => true
  | .heapObjectFree _ => true
  | _ => false

/-- Modelled from the spec: one already-lexed line of the text transport of
spec section 4.2.  The repository source under src/ has no text adapter;
lines are represented at token level, carrying the decimal token values and
the unescaped batch bytes the spec describes. -/
inductive TextLine where
  | allocLine (dt id typ : Nat)
  | freeLine (dt id : Nat)
  | batchHeader
  | batchData (bytes : List Nat)
  | blank
  | otherLine
deriving DecidableEq, Repr

/-- Modelled from the spec: the TextTraceAdapter of spec section 4.2.  Alloc
lines normalize to alloc records whose arrival order is a monotonically
incrementing per-adapter counter, free lines to free records, and an
ExperimentalBatch header line followed by a data line to a one-batch Span
record; a blank line after the header is tolerated and skipped, any other
malformed follow-up is fatal, and unmatched lines are ignored. -/
def textAdapter : List TextLine → Nat → Option (List Event)
  | [], _ => some []
  | .allocLine _ id typ :: rest, c =>
    (textAdapter rest (c + 1)).map (Event.heapObjectAlloc id typ (c : Int) :: ·)
  | .freeLine _ id :: rest, c =>
    (textAdapter rest c).map (Event.heapObjectFree id :: ·)
  | .batchHeader :: .batchData bs :: rest, c =>
    (textAdapter rest c).map (Event.span (some [bs]) :: ·)
  | .batchHeader :: .blank :: rest, c => textAdapter rest c
  | .batchHeader :: _, _ => none
  | .batchData _ :: rest, c => textAdapter rest c
  | .blank :: rest, c => textAdapter rest c
  | .otherLine :: rest, c => textAdapter rest c

/-- One record of an abstract fixture event sequence, used to state the
cross-adapter portability contract of spec section 8. -/
inductive FixtureRecord where
  | alloc (id typ : Nat)
  | free (id : Nat)
  | batch (bytes : List Nat)
deriving DecidableEq, Repr

/-- The fixture rendered as binary-adapter events, timestamps supplied by
the same running counter the text adapter uses for arrival order. -/
def fixtureBinary : List FixtureRecord → Nat → List Event
  | [], _ => []
  | .alloc id typ :: rest, c =>
    .heapObjectAlloc id typ (c : Int) :: fixtureBinary rest (c + 1)
  | .free id :: rest, c => .heapObjectFree id :: fixtureBinary rest c
  | .batch bs :: rest, c => .span (some [bs]) :: fixtureBinary rest c

/-- The fixture rendered as text-adapter lines. -/
def fixtureText : List FixtureRecord → List TextLine
  | [] => []
  | .alloc id typ :: rest => .allocLine 0 id typ :: fixtureText rest
  | .free id :: rest => .freeLine 0 id :: fixtureText rest
  | .batch bs :: rest => .batchHeader :: .batchData bs :: fixtureText rest

/-- resolve of the spec, the id-to-address direction: identical to
HeapObject.Addr of the source, which only reads the id field. -/
def resolve (id : Nat) (t : TraceInfo) : Nat :=
  HeapObject.Addr ⟨id, 0, 0⟩ t

/-- Mathematical ascending-id order on catalog entries. -/
def metaIdLe (a b : TypeMeta) : Prop :=
  a.Id ≤ b.Id

instance : DecidableRel metaIdLe := fun a b => by
  unfold metaIdLe
  infer_instance

instance : IsTotal TypeMeta metaIdLe :=
  ⟨fun a b => le_total a.Id b.Id⟩

instance : IsTrans TypeMeta metaIdLe :=
  ⟨fun _ _ _ h₁ h₂ => le_trans h₁ h₂⟩

/-- Mathematical ascending-arrival-order relation on live objects. -/
def hoTimeLe (a b : HeapObject) : Prop :=
  a.time ≤ b.time

instance : DecidableRel hoTimeLe := fun a b => by
  unfold hoTimeLe
  infer_instance

instance : IsTotal HeapObject hoTimeLe :=
  ⟨fun a b => le_total a.time b.time⟩

instance : IsTrans HeapObject hoTimeLe :=
  ⟨fun _ _ _ h₁ h₂ => le_trans h₁ h₂⟩

/-- binary.PutUvarint encoding of a uint64 value: base-128 little endian,
high bit set on every byte except the last. -/
def uvarintEnc (v : Nat) : List Nat :=
  if v < 128 then [v] else (v % 128 + 128) :: uvarintEnc (v / 128)
termination_by v
decreasing_by exact Nat.div_lt_self (by omega) (by omega)

/-- Field values of one well-formed type record before encoding. -/
structure RecSpec where
  rid : Nat
  rptr : Nat
  rsize : Nat
  rptrBytes : Nat
  rname : List Nat
deriving DecidableEq, Repr

/-- All numeric fields of the record fit in uint64. -/
def RecSpec.wf (r : RecSpec) : Prop :=
  r.rid < 2 ^ 64 ∧ r.rptr < 2 ^ 64 ∧ r.rsize < 2 ^ 64 ∧ r.rptrBytes < 2 ^ 64 ∧
    r.rname.length < 2 ^ 64

instance : DecidablePred RecSpec.wf := fun r => by
  unfold RecSpec.wf
  infer_instance

/-- Wire encoding of one record: five varints then the name bytes. -/
def encRec (r : RecSpec) : List Nat :=
  uvarintEnc r.rid ++ (uvarintEnc r.rptr ++ (uvarintEnc r.rsize ++
    (uvarintEnc r.rptrBytes ++ (uvarintEnc r.rname.length ++ r.rname))))

/-- The catalog entry the decoder produces for the record. -/
def RecSpec.meta (r : RecSpec) : TypeMeta :=
  ⟨intOfUInt64 r.rid, r.rptr, intOfUInt64 r.rsize, intOfUInt64 r.rptrBytes, r.rname⟩

/-- Concatenated encoding of a record list. -/
def encRecList : List RecSpec → List Nat
  | [] => []
  | r :: rs => encRec r ++ encRecList rs

theorem find?_pred_congr {α : Type} (p q : α → Bool) (h : ∀ a, p a = q a) :
    ∀ l : List α, l.find? p = l.find? q
  | [] => rfl
  | a :: l => by
    rw [List.find?, List.find?, h a, find?_pred_congr p q h l]

theorem find?_key_filter_ne {κ α : Type} [DecidableEq κ] (k k' : κ) (hne : k' ≠ k)
    (l : List (κ × α)) :
    (l.filter fun p => p.1 ≠ k).find? (fun p => p.1 = k') =
      l.find? (fun p => p.1 = k') := by
  rw [List.find?_filter]
  refine find?_pred_congr _ _ (fun a => ?_) l
  by_cases h : a.1 = k'
  · have : ¬ a.1 = k := fun hk => hne (by rw [← h, hk])
    simp [h, this, hne]
  · simp [h]

theorem find?_key_filter_self {κ α : Type} [DecidableEq κ] (k : κ) (l : List (κ × α)) :
    (l.filter fun p => p.1 ≠ k).find? (fun p => p.1 = k) = none := by
  rw [List.find?_filter]
  rw [List.find?_eq_none]
  intro a _
  by_cases h : a.1 = k <;> simp [h]

theorem lsLookup_insert_self (l : List (Nat × HeapObject)) (k : Nat) (h : HeapObject) :
    lsLookup (lsInsert l k h) k = some h := by
  simp [lsLookup, lsInsert, List.find?]

theorem lsLookup_insert_ne (l : List (Nat × HeapObject)) (k : Nat) (h : HeapObject)
    (k' : Nat) (hne : k' ≠ k) : lsLookup (lsInsert l k h) k' = lsLookup l k' := by
  unfold lsLookup lsInsert
  rw [List.find?_cons_of_neg _ (by simpa using Ne.symm hne)]
  rw [find?_key_filter_ne k k' hne l]

theorem lsLookup_erase_self (l : List (Nat × HeapObject)) (k : Nat) :
    lsLookup (lsErase l k) k = none := by
  unfold lsLookup lsErase
  rw [find?_key_filter_self k l]
  rfl

theorem lsLookup_erase_ne (l : List (Nat × HeapObject)) (k k' : Nat) (hne : k' ≠ k) :
    lsLookup (lsErase l k) k' = lsLookup l k' := by
  unfold lsLookup lsErase
  rw [find?_key_filter_ne k k' hne l]

theorem lsErase_of_lookup_none (l : List (Nat × HeapObject)) (k : Nat)
    (h : lsLookup l k = none) : lsErase l k = l := by
  have hfind : l.find? (fun p => p.1 = k) = none := by
    unfold lsLookup at h
    cases hf : l.find? (fun p => p.1 = k) with
    | none => rfl
    | some a => rw [hf] at h; simp at h
  have hall := List.find?_eq_none.mp hfind
  unfold lsErase
  refine List.filter_eq_self.mpr (fun p hp => ?_)
  simpa using fun he => by simpa [he] using hall p hp

/-- Invariant lemma for the churn replay: over alloc/free events the run
never fails, touches neither the catalog nor the layout parameters, and the
per-id liveness evolves by the last-event-wins fold. -/
theorem runEvents_allocFree (es : List Event) :
    ∀ st : ParseState, (∀ e ∈ es, isAllocFree e = true) →
      ∃ st' : ParseState, runEvents false st es = some st' ∧
        st'.allocFreeInfo = st.allocFreeInfo ∧ st'.typeMap = st.typeMap ∧
        ∀ id : Nat, (lsLookup st'.allocs id).isSome =
          es.foldl
            (fun b e =>
              match e with
              | .heapObjectAlloc i _ _ => if i = id then true else b
              | .heapObjectFree i => if i = id then false else b
              | _ => b)
            (lsLookup st.allocs id).isSome := by
  induction es with
  | nil =>
    intro st _
    exact ⟨st, rfl, rfl, rfl, fun _ => rfl⟩
  | cons e es ih =>
    intro st hes
    have he : isAllocFree e = true := hes e (List.mem_cons_self e es)
    have hes' : ∀ e' ∈ es, isAllocFree e' = true := fun e' h' =>
      hes e' (List.mem_cons_of_mem e h')
    match e, he with
    | .heapObjectAlloc i typ time, _ =>
      obtain ⟨st', h1, h2, h3, h4⟩ :=
        ih { st with allocs := lsInsert st.allocs i ⟨i, intOfUInt64 typ, time⟩ } hes'
      refine ⟨st', by simpa [runEvents, step] using h1, h2, h3, fun id => ?_⟩
      rw [h4 id]
      simp only [List.foldl_cons]
      by_cases hid : i = id
      · subst hid
        rw [if_pos rfl]
        simp [lsLookup_insert_self]
      · rw [if_neg hid]
        rw [lsLookup_insert_ne st.allocs i _ id (Ne.symm hid)]
    | .heapObjectFree i, _ =>
      obtain ⟨st', h1, h2, h3, h4⟩ := ih { st with allocs := lsErase st.allocs i } hes'
      refine ⟨st', by simpa [runEvents, step] using h1, h2, h3, fun id => ?_⟩
      rw [h4 id]
      simp only [List.foldl_cons]
      by_cases hid : i = id
      · subst hid
        rw [if_pos rfl]
        simp [lsLookup_erase_self]
      · rw [if_neg hid]
        rw [lsLookup_erase_ne st.allocs i id (Ne.symm hid)]

/-- C1 (amended): for any stream of alloc/free events the replay succeeds
and the final LiveSet key set is the set of ids whose last alloc/free event
is an alloc, the last-event-wins model, which differs from the counting
model of the claim. -/
theorem c1_liveset_last_event_wins (es : List Event)
    (hes : ∀ e ∈ es, isAllocFree e = true) :
    ∃ st : ParseState, runEvents false initState es = some st ∧
      ∀ id : Nat, (lsLookup st.allocs id).isSome = liveAfter es id := by
  obtain ⟨st, h1, _, _, h4⟩ := runEvents_allocFree es initState hes
  exact ⟨st, h1, fun id => by simpa [liveAfter, initState, lsLookup] using h4 id⟩

/-- C1 counterexample: after alloc(1), alloc(1), free(1) the counting model
net(alloc_count - free_count) = 1 > 0 calls id 1 live, but the replayed
LiveSet is empty. -/
theorem c1_counting_model_counterexample :
    0 < (countAlloc [.heapObjectAlloc 1 5 0, .heapObjectAlloc 1 5 1, .heapObjectFree 1] 1 : Int) -
        (countFree [.heapObjectAlloc 1 5 0, .heapObjectAlloc 1 5 1, .heapObjectFree 1] 1 : Int) ∧
      (runEvents false initState
          [.heapObjectAlloc 1 5 0, .heapObjectAlloc 1 5 1, .heapObjectFree 1]).map
        (fun st => (lsLookup st.allocs 1).isSome) = some false := by
  constructor
  · decide
  · rfl

/-- C1 witness: the last-event-wins characterization applied to a concrete
alloc/free stream. -/
theorem c1_witness :
    (∀ e ∈ [Event.heapObjectAlloc 2 3 0, Event.heapObjectFree 2,
            Event.heapObjectAlloc 4 1 1], isAllocFree e = true) ∧
      ∃ st : ParseState,
        runEvents false initState
            [Event.heapObjectAlloc 2 3 0, Event.heapObjectFree 2,
             Event.heapObjectAlloc 4 1 1] = some st ∧
          ∀ id : Nat,
            (lsLookup st.allocs id).isSome =
              liveAfter
                [Event.heapObjectAlloc 2 3 0, Event.heapObjectFree 2,
                 Event.heapObjectAlloc 4 1 1] id :=
  ⟨by decide, c1_liveset_last_event_wins _ (by decide)⟩

/-- C3: in snapshot-only mode, after a span carrying the type catalog and
the layout info and a full snapshot of object-existence events for ids 1..5,
a post-snapshot alloc of id 6 and free of id 3 leave the final report
exactly as it was before them; the report still holds the addresses of ids
1, 2, 4 and 5 (as well as 3), namely 0x1008, 0x1010, 0x1018, 0x1020, 0x1028
under minHeapAddr 0x1000. -/
theorem c3_snapshot_only_freeze :
    ParseTrace
        ([.span (some [[0, 1, 0, 16, 0, 1, 65], [1, 128, 32, 128, 64, 8, 128, 16]]),
          .heapObject 1 1 1, .heapObject 2 1 2, .heapObject 3 1 3,
          .heapObject 4 1 4, .heapObject 5 1 5] ++
          [.heapObjectAlloc 6 1 6, .heapObjectFree 3])
        false true =
      ParseTrace
        [.span (some [[0, 1, 0, 16, 0, 1, 65], [1, 128, 32, 128, 64, 8, 128, 16]]),
         .heapObject 1 1 1, .heapObject 2 1 2, .heapObject 3 1 3,
         .heapObject 4 1 4, .heapObject 5 1 5]
        false true ∧
      (ParseTrace
          ([.span (some [[0, 1, 0, 16, 0, 1, 65], [1, 128, 32, 128, 64, 8, 128, 16]]),
            .heapObject 1 1 1, .heapObject 2 1 2, .heapObject 3 1 3,
            .heapObject 4 1 4, .heapObject 5 1 5] ++
            [.heapObjectAlloc 6 1 6, .heapObjectFree 3])
          false true).map (·.map (·.Ptr)) =
        some [0x1008, 0x1010, 0x1018, 0x1020, 0x1028] := by
  constructor
  · rfl
  · rfl

/-- C6 counterexample: the id-to-address direction wraps in uint64
arithmetic, so unresolve(resolve(id, p), p) = id fails at id = 2 ^ 61 with
minHeapAddr 0x1000: the resolved address wraps to 0x1000 and unresolves to
0, not 2 ^ 61. -/
theorem c6_roundtrip_counterexample :
    unresolve (resolve (2 ^ 61) ⟨0x1000, 8192, 8, 2048⟩) ⟨0x1000, 8192, 8, 2048⟩ = 0 ∧
      (2 ^ 61 : Nat) ≠ 0 := by
  constructor
  · rfl
  · decide

/-- C6 (amended): resolve and unresolve are mutually inverse on the
overflow-free range: resolve(unresolve(a, p), p) = a for every 8-aligned
address a at or above minHeapAddr (addresses being uint64 values), and
unresolve(resolve(id, p), p) = id for every id with id * 8 + minHeapAddr
below 2 ^ 64; concretely resolve(5) = 0x1028 and unresolve(0x1028) = 5
under minHeapAddr 0x1000. -/
theorem c6_resolve_unresolve_inverse :
    (∀ (a : Nat) (t : TraceInfo), a < 2 ^ 64 → t.MinPageHeapAddr ≤ a →
      8 ∣ (a - t.MinPageHeapAddr) → resolve (unresolve a t) t = a) ∧
      (∀ (id : Nat) (t : TraceInfo), id * 8 + t.MinPageHeapAddr < 2 ^ 64 →
        unresolve (resolve id t) t = id) ∧
      resolve 5 ⟨0x1000, 8192, 8, 2048⟩ = 0x1028 ∧
      unresolve 0x1028 ⟨0x1000, 8192, 8, 2048⟩ = 5 := by
  refine ⟨?_, ?_, rfl, rfl⟩
  · intro a t ha hge hdvd
    unfold resolve unresolve HeapObject.Addr
    rw [Nat.div_mul_cancel hdvd, Nat.sub_add_cancel hge, Nat.mod_eq_of_lt ha]
  · intro id t hlt
    unfold resolve unresolve HeapObject.Addr
    rw [Nat.mod_eq_of_lt hlt, Nat.add_sub_cancel, Nat.mul_div_cancel _ (by norm_num)]

/-- C6 witness: both inverse directions instantiated at concrete inputs. -/
theorem c6_witness :
    ((0x1010 : Nat) < 2 ^ 64 ∧ (0x1000 : Nat) ≤ 0x1010 ∧ 8 ∣ (0x1010 - 0x1000 : Nat) ∧
        resolve (unresolve 0x1010 ⟨0x1000, 8192, 8, 2048⟩) ⟨0x1000, 8192, 8, 2048⟩ = 0x1010) ∧
      ((9 : Nat) * 8 + 0x1000 < 2 ^ 64 ∧
        unresolve (resolve 9 ⟨0x1000, 8192, 8, 2048⟩) ⟨0x1000, 8192, 8, 2048⟩ = 9) :=
  ⟨⟨by decide, by decide, by decide,
    c6_resolve_unresolve_inverse.1 0x1010 ⟨0x1000, 8192, 8, 2048⟩ (by decide) (by decide)
      (by decide)⟩,
   ⟨by decide,
    c6_resolve_unresolve_inverse.2.1 9 ⟨0x1000, 8192, 8, 2048⟩ (by decide)⟩⟩

/-- C7: an alloc event overwrites the LiveSet record for its id
unconditionally and leaves other ids alone, a free event for an absent id
leaves the state unchanged, and concretely alloc(7, type 10) then
alloc(7, type 20) with no intervening free leaves exactly the one record
(7, type 20). -/
theorem c7_alloc_overwrite_free_noop :
    (∀ (st : ParseState) (id typ : Nat) (time : Int),
      (step false st (.heapObjectAlloc id typ time)).map
          (fun st' => lsLookup st'.allocs id) =
        some (some ⟨id, intOfUInt64 typ, time⟩)) ∧
      (∀ (st : ParseState) (id typ : Nat) (time : Int) (id' : Nat), id' ≠ id →
        (step false st (.heapObjectAlloc id typ time)).map
            (fun st' => lsLookup st'.allocs id') = some (lsLookup st.allocs id')) ∧
      (∀ (st : ParseState) (id : Nat), lsLookup st.allocs id = none →
        step false st (.heapObjectFree id) = some st) ∧
      (runEvents false initState
          [.heapObjectAlloc 7 10 0, .heapObjectAlloc 7 20 1]).map (·.allocs) =
        some [(7, ⟨7, 20, 1⟩)] := by
  refine ⟨?_, ?_, ?_, by decide⟩
  · intro st id typ time
    simp [step, lsLookup_insert_self]
  · intro st id typ time id' hne
    simp [step, lsLookup_insert_ne _ _ _ _ hne]
  · intro st id h
    simp [step, lsErase_of_lookup_none st.allocs id h]

/-- C7 witness: the free-of-absent-id direction at a concrete state. -/
theorem c7_witness :
    lsLookup initState.allocs 3 = none ∧
      step false initState (.heapObjectFree 3) = some initState :=
  ⟨rfl, c7_alloc_overwrite_free_noop.2.2.1 initState 3 rfl⟩

/-- Helper: the length of a filterMap whose function is a guarded some is
the length of the corresponding filter. -/
theorem length_filterMap_if {α β : Type} (p : α → Bool) (g : α → β) :
    ∀ l : List α,
      (l.filterMap fun a => if p a then some (g a) else none).length =
        (l.filter p).length
  | [] => rfl
  | a :: l => by
    by_cases h : p a <;>
      simp [List.filterMap_cons, List.filter_cons, h, length_filterMap_if p g l]

/-- C9 (amended): the reporter always drops live entries whose typeId has
no catalog match; the report has exactly one line per catalog-matched
entry, under every state, and no configuration option exists. -/
theorem c9_untyped_entries_dropped (st : ParseState) :
    (mappingsOfState st).length =
      ((st.allocs.map (·.2)).filter (fun h => h.HasName st.typeMap)).length := by
  unfold mappingsOfState sortAllocs
  rw [length_filterMap_if]
  exact (List.Perm.filter _ (List.perm_insertionSort hoLe _)).length_eq

/-- C9 counterexample: the claimed placeholder policy is not reachable
under any flag combination of ParseTrace: a live object with an
uncatalogued type is dropped from the report in all four debug and
snapshot-mode configurations, although the placeholder name "???" exists in
the type-lookup helper. -/
theorem c9_no_placeholder_configuration :
    ParseTrace [.heapObject 1 99 0] false false = some [] ∧
      ParseTrace [.heapObject 1 99 0] false true = some [] ∧
      ParseTrace [.heapObject 1 99 0] true false = some [] ∧
      ParseTrace [.heapObject 1 99 0] true true = some [] ∧
      HeapObject.TypeName ⟨1, 99, 0⟩ [] = [63, 63, 63] :=
  ⟨rfl, rfl, rfl, rfl, rfl⟩

/-- C10: a Span batch whose first byte is neither 0 nor 1 is skipped
silently: no error and an unchanged state, both at the single-batch handler
and at the full Span event, so the decoder discriminant asserts are never
reached from the ingestion path. -/
theorem c10_unknown_discriminant_skipped :
    ∀ (st : ParseState) (data : List Nat) (b : Nat) (oe : Bool),
      data.head? = some b → b ≠ 0 → b ≠ 1 →
        batchStep st data = some st ∧
          step oe st (.span (some [data])) = some st := by
  intro st data b oe hhead hb0 hb1
  have hbs : batchStep st data = some st := by
    cases data with
    | nil => simp at hhead
    | cons x xs =>
      have hx : x = b := by simpa using hhead
      subst hx
      simp [batchStep, hb0, hb1]
  exact ⟨hbs, by simp [step, spanBatches, hbs]⟩

/-- C10 witness: a concrete batch with discriminant 7 is skipped. -/
theorem c10_witness :
    ([7, 1, 2] : List Nat).head? = some 7 ∧ (7 : Nat) ≠ 0 ∧ (7 : Nat) ≠ 1 ∧
      batchStep initState [7, 1, 2] = some initState ∧
      step false initState (.span (some [[7, 1, 2]])) = some initState :=
  ⟨rfl, by decide, by decide,
   (c10_unknown_discriminant_skipped initState [7, 1, 2] 7 false rfl (by decide) (by decide)).1,
   (c10_unknown_discriminant_skipped initState [7, 1, 2] 7 false rfl (by decide) (by decide)).2⟩

/-- Helper: the text adapter normalizes the text rendering of a fixture to
exactly the binary rendering of the same fixture, for any starting value of
the arrival-order counter. -/
theorem textAdapter_fixture :
    ∀ (f : List FixtureRecord) (c : Nat),
      textAdapter (fixtureText f) c = some (fixtureBinary f c) := by
  intro f
  induction f with
  | nil => intro c; rfl
  | cons r rest ih =>
    intro c
    cases r with
    | alloc id typ => simp [fixtureText, fixtureBinary, textAdapter, ih]
    | free id => simp [fixtureText, fixtureBinary, textAdapter, ih]
    | batch bs => simp [fixtureText, fixtureBinary, textAdapter, ih]

/-- C2: a fixture expressed once as binary-adapter events and once as
text-adapter lines normalizes to the same event stream, so both drive the
ingester to the identical final LiveSet and type catalog, produce the
identical mappings and byte-identical report lines in the same order, in
every debug and snapshot-mode configuration. -/
theorem c2_adapter_equivalence :
    ∀ (f : List FixtureRecord) (debug oe : Bool),
      textAdapter (fixtureText f) 0 = some (fixtureBinary f 0) ∧
        (textAdapter (fixtureText f) 0).bind
            (fun evs => (runEvents oe initState evs).map
              (fun st => (st.allocs, st.typeMap))) =
          (runEvents oe initState (fixtureBinary f 0)).map
            (fun st => (st.allocs, st.typeMap)) ∧
        (textAdapter (fixtureText f) 0).bind (fun evs => ParseTrace evs debug oe) =
          ParseTrace (fixtureBinary f 0) debug oe ∧
        (textAdapter (fixtureText f) 0).bind
            (fun evs => (ParseTrace evs debug oe).map reportLines) =
          (ParseTrace (fixtureBinary f 0) debug oe).map reportLines := by
  intro f debug oe
  rw [textAdapter_fixture]
  exact ⟨rfl, rfl, rfl, rfl⟩

/-- Wrapping is the identity on the int64 range. -/
theorem wrap64_eq_self {x : Int} (h1 : -2 ^ 63 ≤ x) (h2 : x < 2 ^ 63) :
    wrap64 x = x := by
  unfold wrap64
  have e1 : (2 : Int) ^ 63 = 9223372036854775808 := by norm_num
  have e2 : (2 : Int) ^ 64 = 18446744073709551616 := by norm_num
  rw [e1, e2] at *
  rw [Int.emod_eq_of_lt (by omega) (by omega)]
  omega

/-- Insertion into a sorted list only compares the inserted element with
list elements, so two relations agreeing there insert identically. -/
theorem orderedInsert_congr {α : Type} (r r' : α → α → Prop)
    [DecidableRel r] [DecidableRel r'] (x : α) :
    ∀ l : List α, (∀ b ∈ l, (r x b ↔ r' x b)) →
      l.orderedInsert r x = l.orderedInsert r' x
  | [] => fun _ => rfl
  | b :: l => fun h => by
    by_cases hr : r x b
    · rw [List.orderedInsert, List.orderedInsert, if_pos hr,
        if_pos ((h b (List.mem_cons_self b l)).mp hr)]
    · rw [List.orderedInsert, List.orderedInsert, if_neg hr,
        if_neg (fun h' => hr ((h b (List.mem_cons_self b l)).mpr h')),
        orderedInsert_congr r r' x l (fun b' hb' => h b' (List.mem_cons_of_mem b hb'))]

/-- Insertion sort only ever compares list elements, so two relations
agreeing on them sort identically. -/
theorem insertionSort_congr {α : Type} (r r' : α → α → Prop)
    [DecidableRel r] [DecidableRel r'] :
    ∀ l : List α, (∀ a ∈ l, ∀ b ∈ l, (r a b ↔ r' a b)) →
      l.insertionSort r = l.insertionSort r'
  | [] => fun _ => rfl
  | a :: l => fun h => by
    rw [List.insertionSort, List.insertionSort,
      insertionSort_congr r r' l
        (fun x hx y hy =>
          h x (List.mem_cons_of_mem a hx) y (List.mem_cons_of_mem a hy))]
    exact orderedInsert_congr r r' a (l.insertionSort r')
      (fun b hb =>
        h a (List.mem_cons_self a l) b
          (List.mem_cons_of_mem a ((List.mem_insertionSort r').mp hb)))

/-- Correctness lemmas for the Go insertion sort model: one bubbling pass
is a permutation of consing the element. -/
theorem bubbleRev_perm {α : Type} (lt : α → α → Bool) (x : α) :
    ∀ racc : List α, List.Perm (bubbleRev lt x racc) (x :: racc)
  | [] => List.Perm.refl _
  | y :: rest => by
    by_cases h : lt x y
    · rw [show bubbleRev lt x (y :: rest) = y :: bubbleRev lt x rest from by
        simp [bubbleRev, h]]
      exact ((bubbleRev_perm lt x rest).cons y).trans (List.Perm.swap x y rest)
    · rw [show bubbleRev lt x (y :: rest) = x :: y :: rest from by
        simp [bubbleRev, h]]

/-- The outer loop permutes its input onto the accumulator. -/
theorem goInsertionSortRev_perm {α : Type} (lt : α → α → Bool) :
    ∀ l racc : List α, List.Perm (goInsertionSortRev lt l racc) (l ++ racc)
  | [], racc => by
    simp only [goInsertionSortRev, List.nil_append]
    exact racc.reverse_perm
  | x :: xs, racc => by
    simp only [goInsertionSortRev]
    refine (goInsertionSortRev_perm lt xs (bubbleRev lt x racc)).trans ?_
    refine (List.Perm.append_left xs (bubbleRev_perm lt x racc)).trans ?_
    exact List.perm_middle

/-- The Go insertion sort is a permutation. -/
theorem goInsertionSort_perm {α : Type} (lt : α → α → Bool) (l : List α) :
    List.Perm (goInsertionSort lt l) l := by
  simpa [goInsertionSort] using goInsertionSortRev_perm lt l []

/-- When the swap test agrees with the strict part of a total transitive
order on the elements at hand, bubbling preserves the reverse-sorted
accumulator. -/
theorem bubbleRev_pairwise {α : Type} (lt : α → α → Bool) (le : α → α → Prop)
    [IsTotal α le] [IsTrans α le] (P : α → Prop)
    (hagree : ∀ a b, P a → P b → (lt a b = true ↔ ¬ le b a)) (x : α) (hx : P x) :
    ∀ racc : List α, (∀ y ∈ racc, P y) → racc.Pairwise (fun a b => le b a) →
      (bubbleRev lt x racc).Pairwise (fun a b => le b a)
  | [] => fun _ _ => List.pairwise_singleton _ x
  | y :: rest => fun hall hs => by
    have hy : P y := hall y (List.mem_cons_self y rest)
    have hrest : ∀ z ∈ rest, P z := fun z hz => hall z (List.mem_cons_of_mem y hz)
    obtain ⟨hind, hs'⟩ := List.pairwise_cons.mp hs
    by_cases h : lt x y
    · have hxy : ¬ le y x := (hagree x y hx hy).mp h
      have hlexy : le x y := (IsTotal.total x y).resolve_right hxy
      rw [show bubbleRev lt x (y :: rest) = y :: bubbleRev lt x rest from by
        simp [bubbleRev, h]]
      refine List.pairwise_cons.mpr
        ⟨?_, bubbleRev_pairwise lt le P hagree x hx rest hrest hs'⟩
      intro b hb
      rcases List.mem_cons.mp ((bubbleRev_perm lt x rest).mem_iff.mp hb) with rfl | hbr
      · exact hlexy
      · exact hind b hbr
    · have hyx : le y x := by
        by_contra hcon
        exact (by simpa [h] using (hagree x y hx hy).mpr hcon)
      rw [show bubbleRev lt x (y :: rest) = x :: y :: rest from by
        simp [bubbleRev, h]]
      refine List.pairwise_cons.mpr ⟨?_, hs⟩
      intro b hb
      rcases List.mem_cons.mp hb with rfl | hbr
      · exact hyx
      · exact IsTrans.trans b y x (hind b hbr) hyx

/-- The outer loop turns a reverse-sorted accumulator into sorted output. -/
theorem goInsertionSortRev_pairwise {α : Type} (lt : α → α → Bool)
    (le : α → α → Prop) [IsTotal α le] [IsTrans α le] (P : α → Prop)
    (hagree : ∀ a b, P a → P b → (lt a b = true ↔ ¬ le b a)) :
    ∀ l racc : List α, (∀ y ∈ l, P y) → (∀ y ∈ racc, P y) →
      racc.Pairwise (fun a b => le b a) →
      (goInsertionSortRev lt l racc).Pairwise le
  | [], racc => fun _ _ hs => by
    simp only [goInsertionSortRev]
    exact List.pairwise_reverse.mpr hs
  | x :: xs, racc => fun hl hall hs => by
    simp only [goInsertionSortRev]
    have hx : P x := hl x (List.mem_cons_self x xs)
    refine goInsertionSortRev_pairwise lt le P hagree xs (bubbleRev lt x racc)
      (fun y hy => hl y (List.mem_cons_of_mem x hy)) ?_
      (bubbleRev_pairwise lt le P hagree x hx racc hall hs)
    intro y hy
    rcases List.mem_cons.mp ((bubbleRev_perm lt x racc).mem_iff.mp hy) with rfl | hyr
    · exact hx
    · exact hall y hyr

/-- Sortedness of the Go insertion sort under a consistent comparator. -/
theorem goInsertionSort_pairwise {α : Type} (lt : α → α → Bool) (le : α → α → Prop)
    [IsTotal α le] [IsTrans α le] (P : α → Prop)
    (hagree : ∀ a b, P a → P b → (lt a b = true ↔ ¬ le b a))
    (l : List α) (hl : ∀ y ∈ l, P y) :
    (goInsertionSort lt l).Pairwise le :=
  goInsertionSortRev_pairwise lt le P hagree l [] hl (by simp) (by simp)

/-- C5 (amended): decodeTypeCatalog returns its entries sorted ascending by
id whenever all pairwise id differences fit in int64 (the comparator is an
int64 subtraction that wraps outside that range); in particular the batch
with ids [2, 1] decodes to output ordered [1, 2]. -/
theorem c5_catalog_sorted_by_id (data : List Nat) (out : List TypeMeta)
    (hout : parseAllocFreeTypes data = some out)
    (hb : ∀ a ∈ out, ∀ b ∈ out, -2 ^ 63 < a.Id - b.Id ∧ a.Id - b.Id < 2 ^ 63) :
    out.Pairwise (fun a b => a.Id ≤ b.Id) ∧
      parseAllocFreeTypes [0, 2, 0, 16, 0, 1, 66, 1, 0, 8, 0, 1, 65] =
        some [⟨1, 0, 8, 0, [65]⟩, ⟨2, 0, 16, 0, [66]⟩] := by
  refine ⟨?_, rfl⟩
  match data, hout with
  | [], hout => exact Option.noConfusion hout
  | b :: rest, hout =>
    by_cases hb0 : b = 0
    · subst hb0
      simp only [parseAllocFreeTypes, if_pos rfl] at hout
      cases hms : parseTypeRecords rest.length rest with
      | none => rw [hms] at hout; simp at hout
      | some ms =>
        rw [hms] at hout
        have hout' : out = sortMetas ms := by
          simpa using hout.symm
        subst hout'
        have hmem : ∀ x ∈ ms, x ∈ sortMetas ms := by
          intro x hx
          unfold sortMetas
          exact (goInsertionSort_perm metaCmpLt ms).mem_iff.mpr hx
        have hagree : ∀ a b, a ∈ ms → b ∈ ms →
            (metaCmpLt a b = true ↔ ¬ metaIdLe b a) := by
          intro a b ha hbm
          obtain ⟨hx, hy⟩ := hb a (hmem a ha) b (hmem b hbm)
          unfold metaCmpLt metaIdLe
          rw [wrap64_eq_self (le_of_lt hx) hy]
          simp [sub_neg, not_le]
        unfold sortMetas
        exact goInsertionSort_pairwise metaCmpLt metaIdLe (· ∈ ms) hagree ms
          (fun y hy => hy)
    · simp only [parseAllocFreeTypes, if_neg hb0] at hout
      cases hout

/-- C5 counterexample: a structurally valid batch holding ids 2 ^ 63, 0 and
2 ^ 63 - 1 in that order (int64 values -2 ^ 63, 0 and 2 ^ 63 - 1, a cycle
of the wrapped comparator) sorts to [0, 2 ^ 63 - 1, -2 ^ 63], which is not
ascending: tracing Go insertionSortCmpFunc, 0 swaps past -2 ^ 63 because
cmp(0, -2 ^ 63) wraps to -2 ^ 63 < 0, then 2 ^ 63 - 1 swaps past -2 ^ 63
because cmp(2 ^ 63 - 1, -2 ^ 63) wraps to -1 < 0, but stops at 0. -/
theorem c5_wrapped_comparator_counterexample :
    parseAllocFreeTypes
        ([0] ++
          ([128, 128, 128, 128, 128, 128, 128, 128, 128, 1] ++ [0, 0, 0, 0]) ++
          ([0] ++ [0, 0, 0, 0]) ++
          ([255, 255, 255, 255, 255, 255, 255, 255, 127] ++ [0, 0, 0, 0])) =
      some [⟨0, 0, 0, 0, []⟩, ⟨2 ^ 63 - 1, 0, 0, 0, []⟩, ⟨-(2 ^ 63), 0, 0, 0, []⟩] ∧
      ¬ ([(⟨0, 0, 0, 0, []⟩ : TypeMeta), ⟨2 ^ 63 - 1, 0, 0, 0, []⟩,
          ⟨-(2 ^ 63), 0, 0, 0, []⟩].Pairwise (fun a b => a.Id ≤ b.Id)) := by
  constructor
  · rfl
  · intro hp
    have := (List.pairwise_cons.mp (List.pairwise_cons.mp hp).2).1 _
      (List.mem_cons_self _ _)
    simp at this

/-- C5 witness: the sortedness statement applied to the concrete batch with
ids [2, 1]. -/
theorem c5_witness :
    parseAllocFreeTypes [0, 2, 0, 16, 0, 1, 66, 1, 0, 8, 0, 1, 65] =
        some [⟨1, 0, 8, 0, [65]⟩, ⟨2, 0, 16, 0, [66]⟩] ∧
      ([(⟨1, 0, 8, 0, [65]⟩ : TypeMeta), ⟨2, 0, 16, 0, [66]⟩].Pairwise
        (fun a b => a.Id ≤ b.Id)) :=
  ⟨rfl,
   (c5_catalog_sorted_by_id [0, 2, 0, 16, 0, 1, 66, 1, 0, 8, 0, 1, 65]
      [⟨1, 0, 8, 0, [65]⟩, ⟨2, 0, 16, 0, [66]⟩] rfl (by decide)).1⟩

/-- On objects whose timestamp difference fits in int64 the wrapped
comparator is the mathematical order. -/
theorem hoLe_iff_of_bounded {a b : HeapObject}
    (h1 : -2 ^ 63 < a.time - b.time) (h2 : a.time - b.time < 2 ^ 63) :
    hoLe a b ↔ a.time ≤ b.time := by
  unfold hoLe
  rw [wrap64_eq_self (le_of_lt h1) h2]
  exact sub_nonpos

/-- C8 (amended): whenever all pairwise arrival-order differences of the
final LiveSet fit in int64 (the comparator is an int64 subtraction that
wraps outside that range), the report is a permutation of the live entries
sorted ascending by arrival order, restricted to the catalog-matched ones,
each line being exactly 0x(lowercase hex address), colon, space, type name,
space, decimal size and a newline, with no trailing summary line. -/
theorem c8_report_order_and_format (st : ParseState)
    (hbt : ∀ a ∈ st.allocs.map (·.2), ∀ b ∈ st.allocs.map (·.2),
      -2 ^ 63 < a.time - b.time ∧ a.time - b.time < 2 ^ 63) :
    ∃ hs : List HeapObject,
      List.Perm hs (st.allocs.map (·.2)) ∧
        hs.Pairwise (fun a b => a.time ≤ b.time) ∧
        reportLines (mappingsOfState st) =
          hs.filterMap (fun h =>
            if h.HasName st.typeMap then
              some ([48, 120] ++ natHexBytes (h.Addr st.allocFreeInfo) ++ [58, 32] ++
                h.TypeName st.typeMap ++ [32] ++ intDecBytes (h.SizeVal st.typeMap) ++ [10])
            else none) := by
  have hagree : ∀ a ∈ st.allocs.map (·.2), ∀ b ∈ st.allocs.map (·.2),
      (hoLe a b ↔ hoTimeLe a b) := by
    intro a ha b hbm
    obtain ⟨hx, hy⟩ := hbt a ha b hbm
    exact hoLe_iff_of_bounded hx hy
  have hcongr : sortAllocs (st.allocs.map (·.2)) =
      (st.allocs.map (·.2)).insertionSort hoTimeLe := by
    unfold sortAllocs
    exact insertionSort_congr hoLe hoTimeLe _ hagree
  refine ⟨sortAllocs (st.allocs.map (·.2)), ?_, ?_, ?_⟩
  · unfold sortAllocs
    exact List.perm_insertionSort hoLe _
  · rw [hcongr]
    exact List.sorted_insertionSort hoTimeLe _
  · unfold reportLines mappingsOfState
    rw [List.map_filterMap]
    have hfun : ∀ h : HeapObject,
        ((if h.HasName st.typeMap then
            some (⟨h.Addr st.allocFreeInfo, h.TypeName st.typeMap,
                   h.SizeVal st.typeMap⟩ : PtrObjectMapping)
          else none).map mappingLine) =
          (if h.HasName st.typeMap then
            some ([48, 120] ++ natHexBytes (h.Addr st.allocFreeInfo) ++ [58, 32] ++
              h.TypeName st.typeMap ++ [32] ++ intDecBytes (h.SizeVal st.typeMap) ++ [10])
          else none) := by
      intro h
      by_cases hn : h.HasName st.typeMap
      · simp [hn, mappingLine, addrStringBytes]
      · simp [hn]
    exact List.filterMap_congr (fun h _ => hfun h)

/-- C8 counterexample: with arrival orders 2 ^ 63 - 1 and -1 the wrapped
comparator orders the larger timestamp first, so the emitted report is not
ascending by arrival order; the first line belongs to the object with the
later arrival order. -/
theorem c8_wrapped_time_counterexample :
    (runEvents false initState
        [.span (some [[0, 1, 0, 16, 0, 1, 65]]),
         .heapObjectAlloc 2 1 (-1), .heapObjectAlloc 1 1 (2 ^ 63 - 1)]).map
      (fun st => (sortAllocs (st.allocs.map (·.2))).map (·.time)) =
      some [2 ^ 63 - 1, -1] ∧
      ParseTrace
        [.span (some [[0, 1, 0, 16, 0, 1, 65]]),
         .heapObjectAlloc 2 1 (-1), .heapObjectAlloc 1 1 (2 ^ 63 - 1)]
        false false = some [⟨8, [65], 16⟩, ⟨16, [65], 16⟩] ∧
      ¬ ([(2 ^ 63 - 1 : Int), -1].Pairwise (fun a b => a ≤ b)) := by
  refine ⟨rfl, rfl, fun hp => ?_⟩
  have := (List.pairwise_cons.mp hp).1 _ (List.mem_cons_self _ _)
  omega

/-- C8 witness: the order-and-format statement applied to a concrete final
state with two live objects of a catalogued type. -/
theorem c8_witness :
    (∀ a ∈ (ParseState.mk ⟨0, 0, 0, 0⟩ [(1, ⟨1, 0, 8, 0, [65]⟩)]
        [(1, ⟨1, 1, 5⟩), (2, ⟨2, 1, 3⟩)]).allocs.map (·.2),
      ∀ b ∈ (ParseState.mk ⟨0, 0, 0, 0⟩ [(1, ⟨1, 0, 8, 0, [65]⟩)]
        [(1, ⟨1, 1, 5⟩), (2, ⟨2, 1, 3⟩)]).allocs.map (·.2),
        -2 ^ 63 < a.time - b.time ∧ a.time - b.time < 2 ^ 63) ∧
      ∃ hs : List HeapObject,
        List.Perm hs ((ParseState.mk ⟨0, 0, 0, 0⟩ [(1, ⟨1, 0, 8, 0, [65]⟩)]
          [(1, ⟨1, 1, 5⟩), (2, ⟨2, 1, 3⟩)]).allocs.map (·.2)) ∧
          hs.Pairwise (fun a b => a.time ≤ b.time) ∧
          reportLines (mappingsOfState (ParseState.mk ⟨0, 0, 0, 0⟩
            [(1, ⟨1, 0, 8, 0, [65]⟩)] [(1, ⟨1, 1, 5⟩), (2, ⟨2, 1, 3⟩)])) =
            hs.filterMap (fun h =>
              if h.HasName (ParseState.mk ⟨0, 0, 0, 0⟩ [(1, ⟨1, 0, 8, 0, [65]⟩)]
                  [(1, ⟨1, 1, 5⟩), (2, ⟨2, 1, 3⟩)]).typeMap then
                some ([48, 120] ++
                  natHexBytes (h.Addr (ParseState.mk ⟨0, 0, 0, 0⟩
                    [(1, ⟨1, 0, 8, 0, [65]⟩)]
                    [(1, ⟨1, 1, 5⟩), (2, ⟨2, 1, 3⟩)]).allocFreeInfo) ++ [58, 32] ++
                  h.TypeName (ParseState.mk ⟨0, 0, 0, 0⟩ [(1, ⟨1, 0, 8, 0, [65]⟩)]
                    [(1, ⟨1, 1, 5⟩), (2, ⟨2, 1, 3⟩)]).typeMap ++ [32] ++
                  intDecBytes (h.SizeVal (ParseState.mk ⟨0, 0, 0, 0⟩
                    [(1, ⟨1, 0, 8, 0, [65]⟩)]
                    [(1, ⟨1, 1, 5⟩), (2, ⟨2, 1, 3⟩)]).typeMap) ++ [10])
              else none) :=
  ⟨by decide,
   c8_report_order_and_format
     (ParseState.mk ⟨0, 0, 0, 0⟩ [(1, ⟨1, 0, 8, 0, [65]⟩)]
       [(1, ⟨1, 1, 5⟩), (2, ⟨2, 1, 3⟩)]) (by decide)⟩

theorem uvarintEnc_small {v : Nat} (h : v < 128) : uvarintEnc v = [v] := by
  rw [uvarintEnc, if_pos h]

theorem uvarintEnc_big {v : Nat} (h : 128 ≤ v) :
    uvarintEnc v = (v % 128 + 128) :: uvarintEnc (v / 128) := by
  rw [uvarintEnc, if_neg (by omega)]

theorem uvarintEnc_ne_nil (v : Nat) : uvarintEnc v ≠ [] := by
  by_cases h : v < 128
  · rw [uvarintEnc_small h]; simp
  · rw [uvarintEnc_big (by omega)]; simp

theorem uvarintEnc_length_pos (v : Nat) : 0 < (uvarintEnc v).length :=
  List.length_pos.mpr (uvarintEnc_ne_nil v)

/-- Decoding an encoded value embedded at position i of the byte stream. -/
theorem uvarintAux_enc (v : Nat) :
    ∀ (i x : Nat) (rest : List Nat),
      i < 10 → x < 2 ^ (7 * i) → v < 2 ^ (64 - 7 * i) →
      uvarintAux (uvarintEnc v ++ rest) i x (7 * i) =
        some (x + v * 2 ^ (7 * i), i + (uvarintEnc v).length) := by
  induction v using Nat.strong_induction_on with
  | _ v ih =>
    intro i x rest hi hx hv
    by_cases hsmall : v < 128
    · rw [uvarintEnc_small hsmall]
      have h10 : i ≠ maxVarintLen64 := by unfold maxVarintLen64; omega
      have hno : ¬ (i = maxVarintLen64 - 1 ∧ 1 < v) := by
        rintro ⟨h9, hb⟩
        unfold maxVarintLen64 at h9
        subst h9
        norm_num at hv
        omega
      have hlt : x + v * 2 ^ (7 * i) < 2 ^ 64 := by
        have hv' : v + 1 ≤ 2 ^ (64 - 7 * i) := hv
        have h1 : x + v * 2 ^ (7 * i) < (v + 1) * 2 ^ (7 * i) := by
          have := hx
          nlinarith [pow_pos (show 0 < 2 by norm_num) (7 * i)]
        have h2 : (v + 1) * 2 ^ (7 * i) ≤ 2 ^ (64 - 7 * i) * 2 ^ (7 * i) := by
          exact Nat.mul_le_mul_right _ hv'
        have h3 : (2 : Nat) ^ (64 - 7 * i) * 2 ^ (7 * i) = 2 ^ 64 := by
          rw [← pow_add]
          congr 1
          omega
        omega
      simp only [List.cons_append, List.nil_append, uvarintAux, if_neg h10,
        if_pos hsmall, if_neg hno, Nat.mod_eq_of_lt hlt, List.length_cons,
        List.length_nil]
    · push_neg at hsmall
      rw [uvarintEnc_big hsmall]
      have h10 : i ≠ maxVarintLen64 := by unfold maxVarintLen64; omega
      have hge : ¬ (v % 128 + 128 < 128) := by omega
      -- in this branch v ≥ 128 forces i ≤ 8
      have hi8 : i ≤ 8 := by
        by_contra hgt
        have h9 : i = 9 := by omega
        subst h9
        norm_num at hv
        omega
      have hmod : (v % 128 + 128) % 128 = v % 128 := by omega
      have hx' : x + v % 128 * 2 ^ (7 * i) < 2 ^ (7 * (i + 1)) := by
        have hvm : v % 128 < 128 := Nat.mod_lt _ (by norm_num)
        have : x + v % 128 * 2 ^ (7 * i) < 128 * 2 ^ (7 * i) := by
          nlinarith [pow_pos (show 0 < 2 by norm_num) (7 * i)]
        calc x + v % 128 * 2 ^ (7 * i) < 128 * 2 ^ (7 * i) := this
          _ = 2 ^ (7 * (i + 1)) := by
              rw [show 7 * (i + 1) = 7 * i + 7 by ring, pow_add]
              ring
      have hxlt64 : x + v % 128 * 2 ^ (7 * i) < 2 ^ 64 := by
        calc x + v % 128 * 2 ^ (7 * i) < 2 ^ (7 * (i + 1)) := hx'
          _ ≤ 2 ^ 64 := Nat.pow_le_pow_right (by norm_num) (by omega)
      have hvd : v / 128 < 2 ^ (64 - 7 * (i + 1)) := by
        have h1 : v < 2 ^ (64 - 7 * i) := hv
        have h2 : (2 : Nat) ^ (64 - 7 * i) = 128 * 2 ^ (64 - 7 * (i + 1)) := by
          rw [show (128 : Nat) = 2 ^ 7 by norm_num, ← pow_add]
          congr 1
          omega
        rw [Nat.div_lt_iff_lt_mul (by norm_num : (0:Nat) < 128)]
        omega
      have ihv := ih (v / 128) (Nat.div_lt_self (by omega) (by norm_num))
        (i + 1) (x + v % 128 * 2 ^ (7 * i)) rest (by omega) hx' hvd
      simp only [List.cons_append, uvarintAux, if_neg h10, if_neg hge, hmod,
        Nat.mod_eq_of_lt hxlt64, List.append_eq]
      rw [show 7 * i + 7 = 7 * (i + 1) by ring]
      rw [ihv]
      congr 2
      · have : v % 128 + 128 * (v / 128) = v := Nat.mod_add_div v 128
        calc x + v % 128 * 2 ^ (7 * i) + v / 128 * 2 ^ (7 * (i + 1))
            = x + (v % 128 + 128 * (v / 128)) * 2 ^ (7 * i) := by
              rw [show 7 * (i + 1) = 7 * i + 7 by ring, pow_add]
              ring
          _ = x + v * 2 ^ (7 * i) := by rw [this]
      · simp only [List.length_cons]
        omega

theorem uvarint_enc_append {v : Nat} (hv : v < 2 ^ 64) (rest : List Nat) :
    uvarint (uvarintEnc v ++ rest) = some (v, (uvarintEnc v).length) := by
  have := uvarintAux_enc v 0 0 rest (by norm_num) (by norm_num) (by norm_num; exact hv)
  simpa [uvarint] using this

/-- A byte list consisting only of continuation bytes never terminates. -/
theorem uvarintAux_none_all_high :
    ∀ bs : List Nat, (∀ b ∈ bs, 128 ≤ b) → ∀ i x s, uvarintAux bs i x s = none
  | [], _ => fun _ _ _ => rfl
  | b :: rest, h => fun i x s => by
    have hb : 128 ≤ b := h b (List.mem_cons_self b rest)
    by_cases hi : i = maxVarintLen64
    · simp [uvarintAux, hi]
    · simp only [uvarintAux, if_neg hi, if_neg (by omega : ¬ b < 128)]
      exact uvarintAux_none_all_high rest
        (fun b' hb' => h b' (List.mem_cons_of_mem b hb')) _ _ _

/-- Every byte of a strict prefix of an encoding is a continuation byte. -/
theorem uvarintEnc_take_all_high (v : Nat) :
    ∀ j, j < (uvarintEnc v).length → ∀ b ∈ (uvarintEnc v).take j, 128 ≤ b := by
  induction v using Nat.strong_induction_on with
  | _ v ih =>
    intro j hj b hb
    by_cases hsmall : v < 128
    · rw [uvarintEnc_small hsmall] at hj hb
      simp at hj
      subst hj
      simp at hb
    · push_neg at hsmall
      rw [uvarintEnc_big hsmall] at hj hb
      cases j with
      | zero => simp at hb
      | succ j' =>
        simp only [List.length_cons] at hj
        rw [List.take_succ_cons] at hb
        rcases List.mem_cons.mp hb with h1 | h2
        · omega
        · exact ih (v / 128) (Nat.div_lt_self (by omega) (by norm_num)) j'
            (by omega) b h2

/-- Decoding a strict prefix of an encoding fails. -/
theorem uvarint_take_none (v : Nat) (j : Nat) (hj : j < (uvarintEnc v).length) :
    uvarint ((uvarintEnc v).take j) = none :=
  uvarintAux_none_all_high _ (uvarintEnc_take_all_high v j hj) 0 0 0

/-- Taking j bytes of l₁ ++ l₂ with j below the length of l₁ stays in l₁. -/
theorem take_append_lt {α : Type} (l₁ l₂ : List α) (j : Nat) (hj : j < l₁.length) :
    (l₁ ++ l₂).take j = l₁.take j := by
  rw [List.take_append_eq_append_take, show j - l₁.length = 0 by omega]
  simp

/-- Taking j bytes of l₁ ++ l₂ with j at or above the length of l₁ keeps l₁. -/
theorem take_append_ge {α : Type} (l₁ l₂ : List α) (j : Nat) (hj : l₁.length ≤ j) :
    (l₁ ++ l₂).take j = l₁ ++ l₂.take (j - l₁.length) := by
  rw [List.take_append_eq_append_take, List.take_of_length_le hj]

/-- Decoding an exact encoding with nothing following. -/
theorem uvarint_enc {v : Nat} (hv : v < 2 ^ 64) :
    uvarint (uvarintEnc v) = some (v, (uvarintEnc v).length) := by
  have := uvarint_enc_append hv []
  simpa using this

theorem readInfoFields_enc (a b c d : Nat) (ha : a < 2 ^ 64) (hb : b < 2 ^ 64)
    (hc : c < 2 ^ 64) (hd : d < 2 ^ 64) :
    readInfoFields (uvarintEnc a ++ (uvarintEnc b ++ (uvarintEnc c ++ uvarintEnc d))) =
      some ⟨a, b, c, d⟩ := by
  simp only [readInfoFields, uvarint_enc_append ha, List.drop_left,
    uvarint_enc_append hb, uvarint_enc_append hc, uvarint_enc hd]

theorem readInfoFields_take_none (a b c d : Nat) (ha : a < 2 ^ 64) (hb : b < 2 ^ 64)
    (hc : c < 2 ^ 64) (_hd : d < 2 ^ 64) (j : Nat)
    (hj : j < (uvarintEnc a ++ (uvarintEnc b ++ (uvarintEnc c ++ uvarintEnc d))).length) :
    readInfoFields
      ((uvarintEnc a ++ (uvarintEnc b ++ (uvarintEnc c ++ uvarintEnc d))).take j) =
      none := by
  rcases Nat.lt_or_ge j (uvarintEnc a).length with h1 | h1
  · rw [take_append_lt _ _ _ h1]
    simp only [readInfoFields, uvarint_take_none a j h1]
  · rw [take_append_ge _ _ _ h1]
    simp only [readInfoFields, uvarint_enc_append ha, List.drop_left]
    have hj₁ : j - (uvarintEnc a).length <
        (uvarintEnc b ++ (uvarintEnc c ++ uvarintEnc d)).length := by
      simp only [List.length_append] at hj ⊢
      omega
    rcases Nat.lt_or_ge (j - (uvarintEnc a).length) (uvarintEnc b).length with h2 | h2
    · rw [take_append_lt _ _ _ h2]
      simp only [uvarint_take_none b _ h2]
    · rw [take_append_ge _ _ _ h2]
      simp only [uvarint_enc_append hb, List.drop_left]
      have hj₂ : j - (uvarintEnc a).length - (uvarintEnc b).length <
          (uvarintEnc c ++ uvarintEnc d).length := by
        simp only [List.length_append] at hj₁ ⊢
        omega
      rcases Nat.lt_or_ge (j - (uvarintEnc a).length - (uvarintEnc b).length)
        (uvarintEnc c).length with h3 | h3
      · rw [take_append_lt _ _ _ h3]
        simp only [uvarint_take_none c _ h3]
      · rw [take_append_ge _ _ _ h3]
        simp only [uvarint_enc_append hc, List.drop_left]
        have hj₃ : j - (uvarintEnc a).length - (uvarintEnc b).length -
            (uvarintEnc c).length < (uvarintEnc d).length := by
          simp only [List.length_append] at hj₂ ⊢
          omega
        simp only [uvarint_take_none d _ hj₃]

theorem encRec_ne_nil (r : RecSpec) : encRec r ≠ [] := by
  unfold encRec
  intro h
  exact uvarintEnc_ne_nil r.rid (List.append_eq_nil.mp h).1

theorem parseTypeRecords_nil (fuel : Nat) : parseTypeRecords fuel [] = some [] := by
  cases fuel <;> simp [parseTypeRecords]

theorem parseTypeRecords_encList (rs : List RecSpec) :
    ∀ (fuel : Nat) (tail : List Nat), (∀ r ∈ rs, r.wf) → rs.length ≤ fuel →
      parseTypeRecords fuel (encRecList rs ++ tail) =
        (parseTypeRecords (fuel - rs.length) tail).map
          (fun ms => rs.map RecSpec.meta ++ ms) := by
  induction rs with
  | nil =>
    intro fuel tail _ _
    simp only [encRecList, List.nil_append, List.length_nil, Nat.sub_zero, List.map_nil]
    cases parseTypeRecords fuel tail <;> simp
  | cons r rs ih =>
    intro fuel tail hwf hfuel
    obtain ⟨h1, h2, h3, h4, h5⟩ := hwf r (List.mem_cons_self r rs)
    cases fuel with
    | zero => simp at hfuel
    | succ f =>
      have hbuf : encRecList (r :: rs) ++ tail =
          uvarintEnc r.rid ++ (uvarintEnc r.rptr ++ (uvarintEnc r.rsize ++
            (uvarintEnc r.rptrBytes ++ (uvarintEnc r.rname.length ++
              (r.rname ++ (encRecList rs ++ tail)))))) := by
        simp [encRecList, encRec, List.append_assoc]
      have hne : encRecList (r :: rs) ++ tail ≠ [] := by
        rw [hbuf]
        intro h
        exact uvarintEnc_ne_nil r.rid (List.append_eq_nil.mp h).1
      rw [hbuf] at hne ⊢
      simp only [parseTypeRecords, if_neg hne, uvarint_enc_append h1, List.drop_left,
        uvarint_enc_append h2, uvarint_enc_append h3, uvarint_enc_append h4,
        uvarint_enc_append h5]
      rw [if_pos (by simp)]
      rw [List.take_left]
      rw [ih f tail (fun r' hr' => hwf r' (List.mem_cons_of_mem r hr')) (by
        simpa using Nat.lt_succ_iff.mp (Nat.lt_succ_of_le (by
          simpa using hfuel)))]
      have hfl : f + 1 - (rs.length + 1) = f - rs.length := by omega
      simp only [List.length_cons, hfl]
      cases parseTypeRecords (f - rs.length) tail <;> simp [RecSpec.meta]

theorem parseTypeRecords_encRec_take_none (r : RecSpec) (hr : r.wf) (k : Nat)
    (hk0 : 0 < k) (hk : k < (encRec r).length) (fuel : Nat) :
    parseTypeRecords fuel ((encRec r).take k) = none := by
  obtain ⟨h1, h2, h3, h4, h5⟩ := hr
  have hne : (encRec r).take k ≠ [] := by
    have : ((encRec r).take k).length = k := by
      rw [List.length_take]
      omega
    intro h
    rw [h] at this
    simp at this
    omega
  cases fuel with
  | zero =>
    simp [parseTypeRecords, hne]
  | succ f =>
    simp only [parseTypeRecords, if_neg hne]
    unfold encRec at hk ⊢
    rcases Nat.lt_or_ge k (uvarintEnc r.rid).length with g1 | g1
    · rw [take_append_lt _ _ _ g1]
      simp only [uvarint_take_none r.rid k g1]
    · rw [take_append_ge _ _ _ g1]
      simp only [uvarint_enc_append h1, List.drop_left]
      have hk1 : k - (uvarintEnc r.rid).length <
          (uvarintEnc r.rptr ++ (uvarintEnc r.rsize ++ (uvarintEnc r.rptrBytes ++
            (uvarintEnc r.rname.length ++ r.rname)))).length := by
        simp only [List.length_append] at hk ⊢
        omega
      rcases Nat.lt_or_ge (k - (uvarintEnc r.rid).length)
        (uvarintEnc r.rptr).length with g2 | g2
      · rw [take_append_lt _ _ _ g2]
        simp only [uvarint_take_none r.rptr _ g2]
      · rw [take_append_ge _ _ _ g2]
        simp only [uvarint_enc_append h2, List.drop_left]
        have hk2 : k - (uvarintEnc r.rid).length - (uvarintEnc r.rptr).length <
            (uvarintEnc r.rsize ++ (uvarintEnc r.rptrBytes ++
              (uvarintEnc r.rname.length ++ r.rname))).length := by
          simp only [List.length_append] at hk1 ⊢
          omega
        rcases Nat.lt_or_ge (k - (uvarintEnc r.rid).length - (uvarintEnc r.rptr).length)
          (uvarintEnc r.rsize).length with g3 | g3
        · rw [take_append_lt _ _ _ g3]
          simp only [uvarint_take_none r.rsize _ g3]
        · rw [take_append_ge _ _ _ g3]
          simp only [uvarint_enc_append h3, List.drop_left]
          have hk3 : k - (uvarintEnc r.rid).length - (uvarintEnc r.rptr).length -
              (uvarintEnc r.rsize).length <
              (uvarintEnc r.rptrBytes ++ (uvarintEnc r.rname.length ++ r.rname)).length := by
            simp only [List.length_append] at hk2 ⊢
            omega
          rcases Nat.lt_or_ge (k - (uvarintEnc r.rid).length - (uvarintEnc r.rptr).length -
            (uvarintEnc r.rsize).length) (uvarintEnc r.rptrBytes).length with g4 | g4
          · rw [take_append_lt _ _ _ g4]
            simp only [uvarint_take_none r.rptrBytes _ g4]
          · rw [take_append_ge _ _ _ g4]
            simp only [uvarint_enc_append h4, List.drop_left]
            have hk4 : k - (uvarintEnc r.rid).length - (uvarintEnc r.rptr).length -
                (uvarintEnc r.rsize).length - (uvarintEnc r.rptrBytes).length <
                (uvarintEnc r.rname.length ++ r.rname).length := by
              simp only [List.length_append] at hk3 ⊢
              omega
            rcases Nat.lt_or_ge (k - (uvarintEnc r.rid).length -
              (uvarintEnc r.rptr).length - (uvarintEnc r.rsize).length -
              (uvarintEnc r.rptrBytes).length) (uvarintEnc r.rname.length).length with g5 | g5
            · rw [take_append_lt _ _ _ g5]
              simp only [uvarint_take_none _ _ g5]
            · rw [take_append_ge _ _ _ g5]
              simp only [uvarint_enc_append h5, List.drop_left]
              have hk5 : k - (uvarintEnc r.rid).length - (uvarintEnc r.rptr).length -
                  (uvarintEnc r.rsize).length - (uvarintEnc r.rptrBytes).length -
                  (uvarintEnc r.rname.length).length < r.rname.length := by
                simp only [List.length_append] at hk4 ⊢
                omega
              rw [if_neg (by
                rw [List.length_take]
                omega)]

theorem length_le_encRecList : ∀ rs : List RecSpec, rs.length ≤ (encRecList rs).length
  | [] => le_refl _
  | r :: rs => by
    have h1 : 0 < (encRec r).length :=
      List.length_pos.mpr (encRec_ne_nil r)
    have h2 := length_le_encRecList rs
    simp only [List.length_cons, encRecList, List.length_append]
    omega

/-- C4: for every well-formed info batch, truncating the buffer anywhere
strictly inside it makes decodeInfo fail with no partial value, while the
full buffer decodes; and for every well-formed type-catalog batch followed
by a strict nonempty prefix of a further record (a buffer ending mid-record,
mid-varint or with name bytes running past the end), decodeTypeCatalog
fails with no partial value, while the untruncated batch decodes. -/
theorem c4_truncated_buffers_fail :
    (∀ a b c d : Nat, a < 2 ^ 64 → b < 2 ^ 64 → c < 2 ^ 64 → d < 2 ^ 64 →
      parseAllocFreeInfo
          (1 :: (uvarintEnc a ++ (uvarintEnc b ++ (uvarintEnc c ++ uvarintEnc d)))) =
        some ⟨a, b, c, d⟩ ∧
        ∀ k, k < (1 :: (uvarintEnc a ++ (uvarintEnc b ++
            (uvarintEnc c ++ uvarintEnc d)))).length →
          parseAllocFreeInfo
            ((1 :: (uvarintEnc a ++ (uvarintEnc b ++
              (uvarintEnc c ++ uvarintEnc d)))).take k) = none) ∧
      (∀ rs : List RecSpec, (∀ r ∈ rs, r.wf) →
        parseAllocFreeTypes (0 :: encRecList rs) =
          some (sortMetas (rs.map RecSpec.meta)) ∧
        ∀ r : RecSpec, r.wf → ∀ k, 0 < k → k < (encRec r).length →
          parseAllocFreeTypes (0 :: (encRecList rs ++ (encRec r).take k)) = none) := by
  constructor
  · intro a b c d ha hb hc hd
    constructor
    · simp only [parseAllocFreeInfo, if_pos rfl]
      exact readInfoFields_enc a b c d ha hb hc hd
    · intro k hk
      cases k with
      | zero => rfl
      | succ k' =>
        rw [List.take_succ_cons]
        simp only [parseAllocFreeInfo, if_pos rfl]
        refine readInfoFields_take_none a b c d ha hb hc hd k' ?_
        simp only [List.length_cons] at hk
        omega
  · intro rs hwf
    constructor
    · simp only [parseAllocFreeTypes, if_pos rfl]
      have h := parseTypeRecords_encList rs (encRecList rs).length [] hwf
        (length_le_encRecList rs)
      rw [List.append_nil] at h
      rw [h, parseTypeRecords_nil]
      simp
    · intro r hr k hk0 hk
      simp only [parseAllocFreeTypes, if_pos rfl]
      have hlen : rs.length ≤ (encRecList rs ++ (encRec r).take k).length := by
        have := length_le_encRecList rs
        simp only [List.length_append]
        omega
      rw [parseTypeRecords_encList rs _ _ hwf hlen]
      rw [parseTypeRecords_encRec_take_none r hr k hk0 hk]
      rfl

/-- C4 witness: an info buffer with fields 1, 2, 3, 4 truncated after two
varints fails, and a type batch truncated three bytes into a record fails. -/
theorem c4_witness :
    ((1 : Nat) < 2 ^ 64 ∧ (2 : Nat) < 2 ^ 64 ∧ (3 : Nat) < 2 ^ 64 ∧ (4 : Nat) < 2 ^ 64 ∧
      3 < (1 :: (uvarintEnc 1 ++ (uvarintEnc 2 ++ (uvarintEnc 3 ++ uvarintEnc 4)))).length ∧
      parseAllocFreeInfo
        ((1 :: (uvarintEnc 1 ++ (uvarintEnc 2 ++ (uvarintEnc 3 ++ uvarintEnc 4)))).take 3) =
        none) ∧
      (RecSpec.wf ⟨2, 0, 16, 0, [66]⟩ ∧ (0 : Nat) < 3 ∧
        3 < (encRec ⟨2, 0, 16, 0, [66]⟩).length ∧
        parseAllocFreeTypes
          (0 :: (encRecList [] ++ (encRec ⟨2, 0, 16, 0, [66]⟩).take 3)) = none) := by
  have e0 : uvarintEnc 0 = [0] := uvarintEnc_small (by norm_num)
  have e1 : uvarintEnc 1 = [1] := uvarintEnc_small (by norm_num)
  have e2 : uvarintEnc 2 = [2] := uvarintEnc_small (by norm_num)
  have e3 : uvarintEnc 3 = [3] := uvarintEnc_small (by norm_num)
  have e4 : uvarintEnc 4 = [4] := uvarintEnc_small (by norm_num)
  have e16 : uvarintEnc 16 = [16] := uvarintEnc_small (by norm_num)
  have hlen1 : 3 <
      (1 :: (uvarintEnc 1 ++ (uvarintEnc 2 ++ (uvarintEnc 3 ++ uvarintEnc 4)))).length := by
    simp [e1, e2, e3, e4]
  have hlen2 : 3 < (encRec ⟨2, 0, 16, 0, [66]⟩).length := by
    simp [encRec, e0, e1, e2, e16]
  exact ⟨⟨by decide, by decide, by decide, by decide, hlen1,
    (c4_truncated_buffers_fail.1 1 2 3 4 (by decide) (by decide) (by decide)
      (by decide)).2 3 hlen1⟩,
    ⟨by decide, by decide, hlen2,
     (c4_truncated_buffers_fail.2 [] (by simp)).2 ⟨2, 0, 16, 0, [66]⟩ (by decide) 3
       (by decide) hlen2⟩⟩

end Trace
